import Mathlib

/-!
Verification of the change-point aggregation/deduplication core, the result
buffer, the batch executor loop and the task builder of
`testAll_reproducibility.py`, as a shallow embedding in Lean.
-/

namespace CDrift

/-! ## Change-point aggregation (`aggregate_change_points_by_window`)

A candidate record, as built in the flattening step (lines 283-292 of the
source): one record per `(window_size, cp)` pair with `support = 1` and
`supporting_windows = {window_size}`. -/

structure Record where
  cp : Int
  window_size : Nat
  support : Nat
  supporting_windows : Finset Nat
deriving DecidableEq

/-- The sort order `key=lambda x: (-x["window_size"], x["cp"])`: descending
window size, then ascending change point. -/
def recLE (a b : Record) : Prop :=
  b.window_size < a.window_size ∨ (a.window_size = b.window_size ∧ a.cp ≤ b.cp)

instance : DecidableRel recLE := fun a b =>
  inferInstanceAs (Decidable (_ ∨ _))

instance : IsTotal Record recLE := by
  constructor
  intro a b
  unfold recLE
  rcases Nat.lt_trichotomy a.window_size b.window_size with h | h | h
  · right; left; exact h
  · rcases Int.le_total a.cp b.cp with h2 | h2
    · left; right; exact ⟨h, h2⟩
    · right; right; exact ⟨h.symm, h2⟩
  · left; left; exact h

instance : IsTrans Record recLE := by
  constructor
  intro a b c hab hbc
  unfold recLE at *
  rcases hab with h1 | ⟨h1, h1'⟩ <;> rcases hbc with h2 | ⟨h2, h2'⟩
  · exact Or.inl (h2.trans h1)
  · exact Or.inl (h2 ▸ h1)
  · exact Or.inl (h1 ▸ h2)
  · exact Or.inr ⟨h1.trans h2, h1'.trans h2'⟩

/-- The merge distance `abs(rec_a["cp"] - rec_b["cp"])` (line 308). -/
def cpDist (a b : Record) : Nat := (a.cp - b.cp).natAbs

/-- The merge-candidate test of lines 305-310: `rec_b` must have a strictly
smaller window size, and `dist <= rec_a["window_size"] * alpha`.  The rational
inequality is compared exactly, by cross-multiplying with the (positive)
denominator of `alpha`; `isCandidate_iff` below shows this equals the
source's inequality over `ℚ`. -/
def isCandidate (alpha : ℚ) (a b : Record) : Bool :=
  decide (b.window_size < a.window_size) &&
    decide ((cpDist a b : Int) * (alpha.den : Int) ≤ (a.window_size : Int) * alpha.num)

/-- The inner scan of lines 303-310: all merge candidates among the records
after the current one (position-tagged, in scan order). -/
def candidatesOf (alpha : ℚ) (a : Record) (rest : List Record) :
    List (Nat × Record) :=
  rest.enum.filter (fun ib => isCandidate alpha a ib.2)

/-- The selection `min(candidates, key=lambda x: x[0])` of line 314: the
first candidate attaining the minimal distance. -/
def pickClosest (a : Record) : List (Nat × Record) → Option (Nat × Record)
  | [] => none
  | c :: cs =>
      some (cs.foldl (fun best c2 => if cpDist a c2.2 < cpDist a best.2 then c2 else best) c)

/-- Lines 315-316: the closest candidate absorbs the current record's support
and supporting windows. -/
def mergeInto (a b : Record) : Record :=
  { b with
    support := b.support + a.support,
    supporting_windows := b.supporting_windows ∪ a.supporting_windows }

/-- The main merge loop of lines 299-318, with the in-place mutation of the
chosen candidate rendered as `List.set` on the tail.  The fuel argument is
always instantiated with the list length (the loop visits each record once;
`List.set` preserves the length). -/
def mergeLoop (alpha : ℚ) : Nat → List Record → List Record
  | _, [] => []
  | 0, l => l
  | fuel + 1, a :: rest =>
      match pickClosest a (candidatesOf alpha a rest) with
      | none => a :: mergeLoop alpha fuel rest
      | some ic => mergeLoop alpha fuel (rest.set ic.1 (mergeInto a ic.2))

/-- The flattening step of lines 283-292. -/
def initRecords (cp_all_window_sizes : List (Nat × List Int)) : List Record :=
  cp_all_window_sizes.flatMap
    (fun p => p.2.map (fun c => ⟨c, p.1, 1, {p.1}⟩))

/-- `aggregate_change_points_by_window` (lines 270-320): flatten, sort by
descending window size then ascending cp, and run the nearest-merge loop.
The input dict is an association list `window_size ↦ list of change points`. -/
def aggregate_change_points_by_window
    (cp_all_window_sizes : List (Nat × List Int)) (alpha : ℚ) : List Record :=
  if cp_all_window_sizes.isEmpty then []
  else
    let records := (initRecords cp_all_window_sizes).insertionSort recLE
    mergeLoop alpha records.length records

/-- `deduplicate_change_points_by_window` (lines 324-356): aggregate, filter
by `support >= min_support_windows`, return the `cp` column. -/
def deduplicate_change_points_by_window
    (cp_all_window_sizes : List (Nat × List Int)) (alpha : ℚ)
    (min_support_windows : Nat) : List Int :=
  if cp_all_window_sizes.isEmpty then []
  else
    let aggregated := aggregate_change_points_by_window cp_all_window_sizes alpha
    if aggregated.isEmpty then []
    else
      (aggregated.filter (fun r => decide (min_support_windows ≤ r.support))).map Record.cp

/-! ## Result buffer (`write_results_to_buffer`, lines 681-694)

A result table: a list of column names plus rows of cells aligned with the
columns (`none` = a missing/NaN cell).  Result rows arrive as dicts, modelled
as association lists from column name to a cell value. -/

structure Table (V : Type) where
  cols : List String
  cells : List (List (Option V))
deriving DecidableEq

/-- Dict lookup: the value of the first binding of key `c`. -/
def lookupRow {V : Type} (r : List (String × V)) (c : String) : Option V :=
  (r.find? (fun kv => kv.1 == c)).map Prod.snd

/-- The keys of a row dict. -/
def rowKeys {V : Type} (r : List (String × V)) : List String := r.map Prod.fst

/-- Cell of an aligned row at a named column (first occurrence); `none` when
the column is absent. -/
def getCell {V : Type} : List String → List (Option V) → String → Option V
  | [], _, _ => none
  | _, [], _ => none
  | c0 :: cs, v :: vs, c => if c0 = c then v else getCell cs vs c

/-- Computable code-point comparison of strings (Python's `str` ordering,
used by `sorted`). -/
def charsLe : List Char → List Char → Bool
  | [], _ => true
  | _ :: _, [] => false
  | a :: as, b :: bs => if a = b then charsLe as bs else decide (a < b)

def strRel (a b : String) : Prop := charsLe a.data b.data = true

instance : DecidableRel strRel := fun a b =>
  inferInstanceAs (Decidable (_ = true))

instance : IsTotal String strRel := by
  constructor
  intro a b
  show charsLe a.data b.data = true ∨ charsLe b.data a.data = true
  generalize a.data = xs
  generalize b.data = ys
  induction xs generalizing ys with
  | nil => left; rfl
  | cons x xs ih =>
      cases ys with
      | nil => right; rfl
      | cons y ys =>
          by_cases hxy : x = y
          · subst hxy
            rcases ih ys with h | h
            · left; simpa [charsLe] using h
            · right; simpa [charsLe] using h
          · rcases lt_or_gt_of_ne hxy with h | h
            · left; simp [charsLe, hxy, h]
            · right; simp [charsLe, Ne.symm hxy, h]

instance : IsTrans String strRel := by
  constructor
  intro a b c
  show charsLe a.data b.data = true → charsLe b.data c.data = true →
    charsLe a.data c.data = true
  generalize a.data = xs
  generalize b.data = ys
  generalize c.data = zs
  induction xs generalizing ys zs with
  | nil => intro _ _; rfl
  | cons x xs ih =>
      intro h1 h2
      cases ys with
      | nil => simp [charsLe] at h1
      | cons y ys =>
          cases zs with
          | nil => simp [charsLe] at h2
          | cons z zs =>
              by_cases hxy : x = y
              · subst hxy
                by_cases hxz : x = z
                · subst hxz
                  simp only [charsLe, if_pos rfl] at h1 h2 ⊢
                  exact ih ys zs h1 h2
                · simp only [charsLe, if_neg hxz] at h2 ⊢
                  exact h2
              · by_cases hyz : y = z
                · subst hyz
                  simp only [charsLe, if_neg hxy] at h1 ⊢
                  exact h1
                · simp only [charsLe, if_neg hxy] at h1
                  simp only [charsLe, if_neg hyz] at h2
                  rw [decide_eq_true_iff] at h1 h2
                  have hxz : x < z := lt_trans h1 h2
                  simp only [charsLe, if_neg (ne_of_lt hxz)]
                  rw [decide_eq_true_iff]
                  exact hxz

instance : IsAntisymm String strRel := by
  constructor
  intro a b h1 h2
  have key : ∀ xs ys, charsLe xs ys = true → charsLe ys xs = true → xs = ys := by
    intro xs
    induction xs with
    | nil =>
        intro ys h1 h2
        cases ys with
        | nil => rfl
        | cons y ys => simp [charsLe] at h2
    | cons x xs ih =>
        intro ys h1 h2
        cases ys with
        | nil => simp [charsLe] at h1
        | cons y ys =>
            by_cases hxy : x = y
            · subst hxy
              simp only [charsLe, if_pos rfl] at h1 h2
              rw [ih ys h1 h2]
            · simp only [charsLe, if_neg hxy] at h1
              simp only [charsLe, if_neg (Ne.symm hxy)] at h2
              rw [decide_eq_true_iff] at h1 h2
              exact absurd h2 (asymm h1)
  cases a with
  | mk da =>
      cases b with
      | mk db => exact congrArg String.mk (key da db h1 h2)

/-- Line 686: `sorted(set(existing_df.columns).union(df_new.columns))`. -/
def unionColumns {V : Type} (tcols : List String)
    (new_rows : List (List (String × V))) : List String :=
  ((tcols ++ new_rows.flatMap rowKeys).dedup).insertionSort strRel

/-- `write_results_to_buffer` (lines 681-694): if the new-row frame is empty
(no rows, or rows with no cells at all — `df_new.empty`), return the existing
table; otherwise reindex the existing rows and the new rows to the sorted
union of the column sets and concatenate. -/
def write_results_to_buffer {V : Type} (new_rows : List (List (String × V)))
    (existing : Table V) : Table V :=
  if new_rows.all (fun r => r.isEmpty) then existing
  else
    let all_columns := unionColumns existing.cols new_rows
    { cols := all_columns,
      cells :=
        existing.cells.map (fun r => all_columns.map (fun c => getCell existing.cols r c))
          ++ new_rows.map (fun r => all_columns.map (fun c => lookupRow r c)) }

/-! ## The executor loop of `main` (lines 714-759)

A task result is `Except F (Option rows)`: `Except.error` is an unhandled
fault propagating out of a worker, `Except.ok none` is the `np.NaN`
not-applicable sentinel, and `Except.ok (some rows)` is a normal completion.
File traffic is recorded as a trace of write operations. -/

inductive WriteOp (V : Type) where
  | appendNew (cols : List String) (cells : List (List (Option V)))
  | rewriteAll (t : Table V)
  | finalWrite (t : Table V)
deriving DecidableEq

/-- Line 725: `write_every_x_iterations = 100`. -/
def write_every_x_iterations : Nat := 100

/-- State of the streaming loop: the accumulated table (`results_df`), the
column list of the file on disk (`results_file_columns`), the completed-task
counter, `next_write_index`, and the trace of file writes so far. -/
structure ExecState (V : Type) where
  table : Table V
  fileCols : List String
  counter : Nat
  nextWrite : Nat
  ops : List (WriteOp V)
deriving DecidableEq

/-- One iteration of the streaming loop (lines 731-750): a `np.NaN` result is
skipped outright; otherwise the rows are appended to the buffer, the counter
advances, and every `write_every_x_iterations` completions the newly
accumulated rows are flushed (appended without header when the column set is
unchanged, else the whole file is rewritten). -/
def streamStep {V : Type} (st : ExecState V)
    (res : Option (List (List (String × V)))) : ExecState V :=
  match res with
  | none => st
  | some rows =>
      let tbl := write_results_to_buffer rows st.table
      let counter := st.counter + 1
      if counter % write_every_x_iterations = 0 then
        let newCells := tbl.cells.drop st.nextWrite
        if newCells.isEmpty then
          { st with table := tbl, counter := counter }
        else if st.fileCols = tbl.cols then
          { table := tbl, fileCols := st.fileCols, counter := counter,
            nextWrite := tbl.cells.length,
            ops := st.ops ++ [WriteOp.appendNew tbl.cols newCells] }
        else
          { table := tbl, fileCols := tbl.cols, counter := counter,
            nextWrite := tbl.cells.length,
            ops := st.ops ++ [WriteOp.rewriteAll tbl] }
      else { st with table := tbl, counter := counter }

/-- The streaming delivery mode (`DO_SINGLE_BAR`, lines 731-750) followed by
the final write of line 758.  A fault propagates out of the `for` loop, so
everything after it — including the final write — is skipped. -/
def runStream {V F : Type} :
    List (Except F (Option (List (List (String × V))))) → ExecState V →
      ExecState V × Option F
  | [], st => ({ st with ops := st.ops ++ [WriteOp.finalWrite st.table] }, none)
  | Except.error f :: _, st => (st, some f)
  | Except.ok res :: rs, st => runStream rs (streamStep st res)

/-- The fault carried by a task result, if any. -/
def faultOf {V F : Type} (r : Except F (Option (List (List (String × V))))) :
    Option F :=
  match r with
  | Except.error f => some f
  | Except.ok _ => none

/-- The payload of a non-faulting task result. -/
def okResult {V F : Type} (r : Except F (Option (List (List (String × V))))) :
    Option (Option (List (List (String × V)))) :=
  match r with
  | Except.ok v => some v
  | Except.error _ => none

/-- The bulk delivery mode (lines 752-755) followed by the final write of
line 758: `p.map` either raises the first fault (skipping all writes) or
returns every result; the non-`np.NaN` results are flattened and appended to
the buffer in one step, then the table is written once. -/
def runBulk {V F : Type}
    (results : List (Except F (Option (List (List (String × V))))))
    (st : ExecState V) : ExecState V × Option F :=
  match results.findSome? faultOf with
  | some f => (st, some f)
  | none =>
      let kept := (results.filterMap okResult).filterMap id
      let tbl := write_results_to_buffer kept.flatten st.table
      ({ st with table := tbl, ops := st.ops ++ [WriteOp.finalWrite tbl] }, none)

/-- `testMartjushev_ADWIN` (lines 203-267).  The external collaborators — the
log importer, the two martjushev ADWIN detectors, the scoring metrics and the
wall-clock timers — are out of the modelled core; the two result-row dicts
they produce are abstracted as the `mkEntryJ`/`mkEntryWC` parameters.  What
is modelled from the source is the applicability guard of lines 208-210
(`np.NaN`, i.e. `none`, when `len(log) <= min_window`) and the assembly of
the returned entry list. -/
def testMartjushev_ADWIN {T V : Type} (log : List T)
    (min_window max_window : Nat) (do_j do_wc : Bool)
    (mkEntryJ mkEntryWC : List T → Nat → Nat → List (String × V)) :
    Option (List (List (String × V))) :=
  if log.length ≤ min_window then none
  else
    some ((if do_j then [mkEntryJ log min_window max_window] else [])
      ++ (if do_wc then [mkEntryWC log min_window max_window] else []))

/-- The object-identity test `result is np.NaN` of line 732 (and its
negation `r is not np.NaN` of line 753), evaluated on a result delivered by
the `multiprocessing.Pool`: worker return values are pickled in the worker
and unpickled in the parent, so the delivered object is a fresh float,
never the module-level `np.NaN` object — the identity test is `False` for
every delivered result, the not-applicable sentinel included. -/
def isDeliveredNaN {V : Type} (_res : Option (List (List (String × V)))) :
    Bool :=
  false

/-- One iteration of the streaming loop (lines 731-750) as it actually
executes on a pool-delivered result: the line-732 identity guard never
fires (`isDeliveredNaN`), so a delivered not-applicable sentinel reaches
`flattened = [r for r in result]` (line 734), which iterates a float and
raises `TypeError`; a genuine entry list proceeds exactly as `streamStep`. -/
def streamStepDelivered {V : Type} (st : ExecState V)
    (res : Option (List (List (String × V)))) : Except Unit (ExecState V) :=
  if isDeliveredNaN res then Except.ok st
  else
    match res with
    | none => Except.error ()
    | some rows => Except.ok (streamStep st (some rows))

/-- The bulk-mode filter of line 753, `[r for r in results if r is not
np.NaN]`, on pool-delivered results: the identity test being `False` for
every delivered result, everything — the sentinel included — is kept. -/
def bulkKeepDelivered {V : Type}
    (results : List (Option (List (List (String × V))))) :
    List (Option (List (List (String × V)))) :=
  results.filter (fun r => !(isDeliveredNaN r))

/-- The bulk-mode flattening of line 754, `[res for function_return in
results for res in function_return]`: iterating a kept float sentinel
raises `TypeError`. -/
def flattenDelivered {V : Type} :
    List (Option (List (List (String × V)))) →
      Except Unit (List (List (String × V)))
  | [] => Except.ok []
  | none :: _ => Except.error ()
  | some rows :: rest =>
      match flattenDelivered rest with
      | Except.error e => Except.error e
      | Except.ok tail => Except.ok (rows ++ tail)

/-! ## Task builder (`build_arguments_list`, lines 641-679) -/

/-- Parameter values occurring in the configuration grids and metadata. -/
inductive Val where
  | vnat : Nat → Val
  | vint : Int → Val
  | vstr : String → Val
  | vbool : Bool → Val
  | vlistI : List Int → Val
  | vpairN : Nat → Nat → Val
deriving DecidableEq

/-- A keyword-argument dict. -/
abbrev ArgDict := List (String × Val)

/-- Python dict union `a | b`: keys of `a` in order (values overridden by
`b` where present), then the keys of `b` not in `a`, in order. -/
def dictUnion (a b : ArgDict) : ArgDict :=
  a.map (fun kv => (kv.1, (lookupRow b kv.1).getD kv.2))
    ++ b.filter (fun kv => !((a.map Prod.fst).contains kv.1))

/-- Insertion into a string-keyed dict: overrides in place, else appends. -/
def dictInsert {A : Type} (l : List (String × A)) (k : String) (v : A) :
    List (String × A) :=
  if (l.map Prod.fst).contains k then
    l.map (fun kv => if kv.1 = k then (k, v) else kv)
  else l ++ [(k, v)]

/-- One approach entry of the configuration: `function`, `enabled`,
`meta-params` and the per-parameter candidate grids (`params`). -/
structure Approach where
  funcname : String
  enabled : Bool
  metaParams : ArgDict
  params : List (String × List Val)
deriving DecidableEq

/-- `itertools.product`: all combinations, rightmost grid varying fastest. -/
def listProduct : List (List Val) → List (List Val)
  | [] => [[]]
  | vs :: rest => vs.flatMap (fun v => (listProduct rest).map (fun tail => v :: tail))

/-- Line 646-647: `permutations_dicts = [dict(zip(keys, v)) for v in
product(*values)]`. -/
def combosOf (ps : List (String × List Val)) : List ArgDict :=
  (listProduct (ps.map Prod.snd)).map (fun vs => (ps.map Prod.fst).zip vs)

/-- Line 642: the `_args` dict comprehension over the enabled approaches,
keyed by function name (first-occurrence order, last value wins). -/
def enabledArgs (config : List Approach) :
    List (String × (ArgDict × List (String × List Val))) :=
  config.foldl
    (fun acc a => if a.enabled then dictInsert acc a.funcname (a.metaParams, a.params) else acc)
    []

/-- Lines 644-652: per enabled family, one task stub per parameter
combination (only the first combination in test-run mode), merged with the
family's fixed meta-params. -/
def familyArguments (config : List Approach) (is_test_run : Bool) :
    List (String × ArgDict) :=
  (enabledArgs config).flatMap (fun fa =>
    ((if is_test_run then (combosOf fa.2.2).take 1 else combosOf fa.2.2).map
      (fun perm => (fa.1, dictUnion perm fa.2.1))))

/-- Lines 657-665: the per-dataset shared metadata dict. -/
def mkMetaArg (f1_lag : Nat) (do_single_bar : Bool) (lp : String × List Int) :
    ArgDict :=
  [("F1_LAG", Val.vnat f1_lag), ("filepath", Val.vstr lp.1),
   ("cp_locations", Val.vlistI lp.2), ("show_progress_bar", Val.vbool (!do_single_bar))]

/-- Lines 654-671: cross every family task stub with every dataset's
metadata (only the first dataset in test-run mode). -/
def crossedTasks (config : List Approach) (logPaths : List (String × List Int))
    (f1_lag : Nat) (do_single_bar : Bool) (is_test_run : Bool) :
    List (String × ArgDict) :=
  (familyArguments config is_test_run).flatMap (fun fa =>
    ((if is_test_run then logPaths.take 1 else logPaths).map
        (mkMetaArg f1_lag do_single_bar)).map
      (fun m => (fa.1, dictUnion fa.2 m)))

/-- `build_arguments_list` (lines 641-679): build the crossed task list,
shuffle it (`np.random.shuffle`, abstracted as the `shuffle` parameter), and
give each task its display-position index.  -/
def build_arguments_list
    (shuffle : List (String × ArgDict) → List (String × ArgDict))
    (config : List Approach) (logPaths : List (String × List Int))
    (f1_lag : Nat) (do_single_bar : Bool) (is_test_run : Bool) :
    List (String × ArgDict) :=
  ((shuffle (crossedTasks config logPaths f1_lag do_single_bar is_test_run)).enum).map
    (fun it => (it.2.1, dictUnion it.2.2 [("position", Val.vnat it.1)]))

/-- Drop the display-position key from a task, for comparisons that ignore
the assigned index. -/
def stripPos (t : String × ArgDict) : String × ArgDict :=
  (t.1, t.2.filter (fun kv => !(kv.1 == "position")))

/-! ## Fidelity of the candidate test -/

theorem le_mul_rat_iff (x y : ℚ) (alpha : ℚ) :
    x ≤ y * alpha ↔ x * (alpha.den : ℚ) ≤ y * (alpha.num : ℚ) := by
  have hd : (0 : ℚ) < (alpha.den : ℚ) := by
    exact_mod_cast alpha.den_pos
  conv_lhs => rw [← Rat.num_div_den alpha]
  rw [← mul_div_assoc, le_div_iff₀ hd]

/-- The cross-multiplied comparison in `isCandidate` is exactly the source's
`dist <= rec_a["window_size"] * alpha`, read over `ℚ`. -/
theorem isCandidate_iff (alpha : ℚ) (a b : Record) :
    isCandidate alpha a b = true ↔
      b.window_size < a.window_size ∧
        (cpDist a b : ℚ) ≤ (a.window_size : ℚ) * alpha := by
  unfold isCandidate
  rw [Bool.and_eq_true, decide_eq_true_iff, decide_eq_true_iff]
  refine and_congr Iff.rfl ?_
  rw [le_mul_rat_iff]
  constructor <;> intro h <;> exact_mod_cast h

/-! ## Structural lemmas about the merge loop -/

theorem mergeLoop_nil (alpha : ℚ) (fuel : Nat) : mergeLoop alpha fuel [] = [] := by
  cases fuel <;> rfl

theorem mergeLoop_zero (alpha : ℚ) (l : List Record) : mergeLoop alpha 0 l = l := by
  cases l <;> rfl

theorem mergeLoop_succ (alpha : ℚ) (fuel : Nat) (a : Record) (rest : List Record) :
    mergeLoop alpha (fuel + 1) (a :: rest) =
      match pickClosest a (candidatesOf alpha a rest) with
      | none => a :: mergeLoop alpha fuel rest
      | some ic => mergeLoop alpha fuel (rest.set ic.1 (mergeInto a ic.2)) := rfl

theorem foldl_closest_mem (a : Record) (cs : List (Nat × Record)) (b : Nat × Record) :
    cs.foldl (fun best c2 => if cpDist a c2.2 < cpDist a best.2 then c2 else best) b = b ∨
      cs.foldl (fun best c2 => if cpDist a c2.2 < cpDist a best.2 then c2 else best) b ∈ cs := by
  induction cs generalizing b with
  | nil => left; rfl
  | cons x xs ih =>
      simp only [List.foldl_cons]
      rcases ih (if cpDist a x.2 < cpDist a b.2 then x else b) with h | h
      · rw [h]
        split
        · right; exact List.mem_cons_self _ _
        · left; rfl
      · right; exact List.mem_cons_of_mem _ h

theorem pickClosest_mem {a : Record} {cs : List (Nat × Record)} {c : Nat × Record}
    (h : pickClosest a cs = some c) : c ∈ cs := by
  cases cs with
  | nil => simp [pickClosest] at h
  | cons c0 cs =>
      unfold pickClosest at h
      injection h with h
      rcases foldl_closest_mem a cs c0 with h2 | h2
      · rw [h2] at h; rw [← h]; exact List.mem_cons_self _ _
      · rw [h] at h2; exact List.mem_cons_of_mem _ h2

theorem mem_candidatesOf {alpha : ℚ} {a : Record} {rest : List Record}
    {i : Nat} {b : Record} (h : (i, b) ∈ candidatesOf alpha a rest) :
    rest[i]? = some b ∧ isCandidate alpha a b = true := by
  unfold candidatesOf at h
  rw [List.mem_filter] at h
  exact ⟨List.mem_enum_iff_getElem?.mp h.1, h.2⟩

theorem sum_support_set {l : List Record} {i : Nat} {b : Record} (c : Record)
    (h : l[i]? = some b) :
    (((l.set i c).map Record.support).sum : Nat) + b.support =
      (l.map Record.support).sum + c.support := by
  induction l generalizing i with
  | nil => simp at h
  | cons x xs ih =>
      cases i with
      | zero =>
          simp only [List.getElem?_cons_zero, Option.some_inj] at h
          subst h
          simp [List.set]
          omega
      | succ n =>
          simp only [List.getElem?_cons_succ] at h
          have hih := ih h
          rw [List.set_cons_succ]
          simp only [List.map_cons, List.sum_cons]
          omega

/-- Every record produced by the merge loop satisfies any property that holds
for all initial records and is preserved by merging. -/
theorem mergeLoop_forall {alpha : ℚ} {P : Record → Prop}
    (hP : ∀ a b, P a → P b → P (mergeInto a b)) :
    ∀ (fuel : Nat) (l : List Record), (∀ r ∈ l, P r) →
      ∀ r ∈ mergeLoop alpha fuel l, P r := by
  intro fuel
  induction fuel with
  | zero =>
      intro l hl r hr
      rw [mergeLoop_zero] at hr
      exact hl r hr
  | succ fuel ih =>
      intro l hl r hr
      cases l with
      | nil => rw [mergeLoop_nil] at hr; simp at hr
      | cons a rest =>
          rw [mergeLoop_succ] at hr
          cases hpick : pickClosest a (candidatesOf alpha a rest) with
          | none =>
              rw [hpick] at hr
              rcases List.mem_cons.mp hr with h | h
              · exact h ▸ hl a (List.mem_cons_self _ _)
              · exact ih rest (fun r' hr' => hl r' (List.mem_cons_of_mem _ hr')) r h
          | some ic =>
              rw [hpick] at hr
              obtain ⟨i, b⟩ := ic
              have hib := mem_candidatesOf (pickClosest_mem hpick)
              have hbmem : b ∈ rest := List.getElem?_mem hib.1
              refine ih _ ?_ r hr
              intro r' hr'
              rcases List.mem_or_eq_of_mem_set hr' with h | h
              · exact hl r' (List.mem_cons_of_mem _ h)
              · subst h
                exact hP a b (hl a (List.mem_cons_self _ _))
                  (hl b (List.mem_cons_of_mem _ hbmem))

/-- The merge loop conserves total support. -/
theorem mergeLoop_sum (alpha : ℚ) :
    ∀ (fuel : Nat) (l : List Record), l.length ≤ fuel →
      ((mergeLoop alpha fuel l).map Record.support).sum =
        (l.map Record.support).sum := by
  intro fuel
  induction fuel with
  | zero =>
      intro l hl
      rw [mergeLoop_zero]
  | succ fuel ih =>
      intro l hl
      cases l with
      | nil => rw [mergeLoop_nil]
      | cons a rest =>
          rw [mergeLoop_succ]
          cases hpick : pickClosest a (candidatesOf alpha a rest) with
          | none =>
              simp only [List.map_cons, List.sum_cons]
              rw [ih rest (by simpa using Nat.succ_le_succ_iff.mp hl)]
          | some ic =>
              obtain ⟨i, b⟩ := ic
              have hib := mem_candidatesOf (pickClosest_mem hpick)
              have hlen : (rest.set i (mergeInto a b)).length ≤ fuel := by
                rw [List.length_set]
                simpa using Nat.succ_le_succ_iff.mp hl
              rw [ih _ hlen]
              have h2 := sum_support_set (mergeInto a b) hib.1
              have h3 : (mergeInto a b).support = b.support + a.support := rfl
              rw [h3] at h2
              simp only [List.map_cons, List.sum_cons]
              omega

/-- When every record carries the same window size, no candidate ever
qualifies and the merge loop is the identity. -/
theorem mergeLoop_id (alpha : ℚ) (w : Nat) :
    ∀ (fuel : Nat) (l : List Record), (∀ r ∈ l, r.window_size = w) →
      mergeLoop alpha fuel l = l := by
  intro fuel
  induction fuel with
  | zero => intro l _; exact mergeLoop_zero alpha l
  | succ fuel ih =>
      intro l hl
      cases l with
      | nil => exact mergeLoop_nil alpha _
      | cons a rest =>
          have hcand : candidatesOf alpha a rest = [] := by
            unfold candidatesOf
            rw [List.filter_eq_nil]
            rintro ⟨i, b⟩ hib
            have hbmem : b ∈ rest :=
              List.getElem?_mem (List.mem_enum_iff_getElem?.mp hib)
            unfold isCandidate
            simp only [Bool.and_eq_true, decide_eq_true_iff, not_and]
            intro hlt
            rw [hl b (List.mem_cons_of_mem _ hbmem),
              hl a (List.mem_cons_self _ _)] at hlt
            exact absurd hlt (lt_irrefl w)
          rw [mergeLoop_succ, hcand]
          simp only [pickClosest]
          rw [ih rest (fun r hr => hl r (List.mem_cons_of_mem _ hr))]

/-! ## Membership in the deduplicated output -/

theorem aggregate_empty (alpha : ℚ) {inp : List (Nat × List Int)}
    (h : inp.isEmpty) : aggregate_change_points_by_window inp alpha = [] := by
  unfold aggregate_change_points_by_window
  rw [if_pos h]

theorem mem_deduplicate_iff {inp : List (Nat × List Int)} {alpha : ℚ}
    {m : Nat} {x : Int} :
    x ∈ deduplicate_change_points_by_window inp alpha m ↔
      ∃ r ∈ aggregate_change_points_by_window inp alpha,
        m ≤ r.support ∧ r.cp = x := by
  unfold deduplicate_change_points_by_window
  by_cases h : inp.isEmpty
  · rw [if_pos h, aggregate_empty alpha h]
    simp
  · rw [if_neg h]
    by_cases h2 : (aggregate_change_points_by_window inp alpha).isEmpty
    · rw [if_pos h2]
      rw [List.isEmpty_iff] at h2
      rw [h2]
      simp
    · rw [if_neg h2]
      simp only [List.mem_map, List.mem_filter, decide_eq_true_iff]
      constructor
      · rintro ⟨r, ⟨hr, hm⟩, rfl⟩
        exact ⟨r, hr, hm, rfl⟩
      · rintro ⟨r, hr, hm, rfl⟩
        exact ⟨r, ⟨hr, hm⟩, rfl⟩

theorem initRecords_single (w : Nat) (cps : List Int) :
    initRecords [(w, cps)] = cps.map (fun c => ⟨c, w, 1, {w}⟩) := by
  simp [initRecords]

theorem initRecords_sum (inp : List (Nat × List Int)) :
    ((initRecords inp).map Record.support).sum =
      (inp.map (fun p => p.2.length)).sum := by
  induction inp with
  | nil => rfl
  | cons p ps ih =>
      simp only [initRecords, List.flatMap_cons, List.map_append, List.sum_append,
        List.map_cons, List.sum_cons, List.map_map] at ih ⊢
      rw [ih]
      congr 1
      have : (p.2.map (Record.support ∘ fun c => (⟨c, p.1, 1, {p.1}⟩ : Record))) =
          List.replicate p.2.length 1 := by
        rw [← List.map_const']
        rfl
      rw [this, List.sum_replicate, smul_eq_mul, mul_one]

theorem initRecords_windows (inp : List (Nat × List Int)) :
    ∀ r ∈ initRecords inp,
      r.supporting_windows.Nonempty ∧
        r.supporting_windows ⊆ (inp.map Prod.fst).toFinset := by
  intro r hr
  unfold initRecords at hr
  rw [List.mem_flatMap] at hr
  obtain ⟨p, hp, hr⟩ := hr
  rw [List.mem_map] at hr
  obtain ⟨c, _, rfl⟩ := hr
  refine ⟨Finset.singleton_nonempty _, ?_⟩
  rw [Finset.singleton_subset_iff, List.mem_toFinset, List.mem_map]
  exact ⟨p, hp, rfl⟩

theorem deduplicate_eq {inp : List (Nat × List Int)} {alpha : ℚ} {m : Nat}
    (h : ¬ inp.isEmpty = true)
    (h2 : ¬ (aggregate_change_points_by_window inp alpha).isEmpty = true) :
    deduplicate_change_points_by_window inp alpha m =
      ((aggregate_change_points_by_window inp alpha).filter
          (fun r => decide (m ≤ r.support))).map Record.cp := by
  unfold deduplicate_change_points_by_window
  rw [if_neg h]
  show (if (aggregate_change_points_by_window inp alpha).isEmpty then [] else _) = _
  rw [if_neg h2]

/-! ## Claim theorems about the aggregator -/

/-- C1 (counterexample): on the input mapping `{10: [100], 3: [102]}` with
`alpha = 1.0`, the single output record sits at location 102, not at
location 100 as the claim states. -/
theorem c1_counterexample :
    (aggregate_change_points_by_window [(10, [100]), (3, [102])] 1).map Record.cp
        = [102] ∧
      (aggregate_change_points_by_window [(10, [100]), (3, [102])] 1).map Record.cp
        ≠ [100] := by
  decide

/-- C1 (amended): on `{10: [100], 3: [102]}` with `alpha = 1.0` the
aggregation merges the larger-window candidate into the smaller-window one
(distance 2 ≤ 10), outputting exactly one record whose location is 102 (the
smaller-window candidate's location, kept with `window_size = 3`) and whose
support is 2, with both window sizes recorded as supporting. -/
theorem c1_merge_direction :
    aggregate_change_points_by_window [(10, [100]), (3, [102])] 1 =
      [⟨102, 3, 2, {3, 10}⟩] := by
  decide

/-- C4 (counterexample): on `{3: [100, 101], 2: [100]}` with `alpha = 1.0`
and `min_support_windows = 3`, location 100 is output, yet its merged record
is supported by only the 2 distinct window sizes `{2, 3}` — fewer than the
threshold 3; `support` counted the two same-window detections of size 3
separately. -/
theorem c4_counterexample :
    deduplicate_change_points_by_window [(3, [100, 101]), (2, [100])] 1 3 = [100] ∧
      aggregate_change_points_by_window [(3, [100, 101]), (2, [100])] 1 =
        [⟨100, 2, 3, {2, 3}⟩] ∧
      ¬ 3 ≤ ({2, 3} : Finset Nat).card := by
  decide

/-- C4 (amended): every change-point location output by
`deduplicate_change_points_by_window` comes from a merged record whose
`support` — the number of merged `(windowSize, location)` candidate
detections, which may repeat a window size — is at least
`min_support_windows`; the number of distinct supporting window sizes is
only bounded above by that support. -/
theorem c4_support_counts_merged (inp : List (Nat × List Int)) (alpha : ℚ)
    (m : Nat) (x : Int)
    (hx : x ∈ deduplicate_change_points_by_window inp alpha m) :
    ∃ r ∈ aggregate_change_points_by_window inp alpha,
      r.cp = x ∧ m ≤ r.support ∧ r.supporting_windows.card ≤ r.support := by
  rw [mem_deduplicate_iff] at hx
  obtain ⟨r, hr, hm, rfl⟩ := hx
  refine ⟨r, hr, rfl, hm, ?_⟩
  have hall : ∀ r ∈ aggregate_change_points_by_window inp alpha,
      r.supporting_windows.card ≤ r.support := by
    by_cases h : inp.isEmpty
    · rw [aggregate_empty alpha h]; simp
    · unfold aggregate_change_points_by_window
      rw [if_neg h]
      apply mergeLoop_forall
      · intro a b ha hb
        have h3 : (mergeInto a b).support = b.support + a.support := rfl
        have h4 : (mergeInto a b).supporting_windows =
            b.supporting_windows ∪ a.supporting_windows := rfl
        rw [h3, h4]
        exact le_trans (Finset.card_union_le _ _) (Nat.add_le_add hb ha)
      · intro r' hr'
        have hmem : r' ∈ initRecords inp :=
          (List.perm_insertionSort recLE _).mem_iff.mp hr'
        unfold initRecords at hmem
        rw [List.mem_flatMap] at hmem
        obtain ⟨p, _, hmem⟩ := hmem
        rw [List.mem_map] at hmem
        obtain ⟨c, _, rfl⟩ := hmem
        simp
  exact hall r hr

theorem c4_support_counts_merged_witness :
    ((100 : Int) ∈ deduplicate_change_points_by_window [(3, [100])] 1 1) ∧
      ∃ r ∈ aggregate_change_points_by_window [(3, [100])] 1,
        r.cp = 100 ∧ 1 ≤ r.support ∧ r.supporting_windows.card ≤ r.support :=
  ⟨by decide, c4_support_counts_merged [(3, [100])] 1 1 100 (by decide)⟩

/-- C5: for thresholds `t1 ≤ t2`, every change point returned with
`min_support_windows = t2` is also returned with `min_support_windows = t1`:
lowering the threshold never removes points and raising it never adds
previously-filtered points back. -/
theorem c5_threshold_monotone (inp : List (Nat × List Int)) (alpha : ℚ)
    (t1 t2 : Nat) (h : t1 ≤ t2) :
    ∀ x ∈ deduplicate_change_points_by_window inp alpha t2,
      x ∈ deduplicate_change_points_by_window inp alpha t1 := by
  intro x hx
  rw [mem_deduplicate_iff] at hx ⊢
  obtain ⟨r, hr, hm, rfl⟩ := hx
  exact ⟨r, hr, h.trans hm, rfl⟩

theorem c5_threshold_monotone_witness :
    (1 : Nat) ≤ 2 ∧
      ∀ x ∈ deduplicate_change_points_by_window [(3, [100]), (2, [100])] 1 2,
        x ∈ deduplicate_change_points_by_window [(3, [100]), (2, [100])] 1 1 :=
  ⟨by decide, c5_threshold_monotone [(3, [100]), (2, [100])] 1 1 2 (by decide)⟩

/-- C6 (counterexample): for the single-window mapping `{5: [30, 10]}` with
`min_support_windows = 1`, the output is the sorted list `[10, 30]`, not the
input list `[30, 10]` unchanged. -/
theorem c6_counterexample :
    deduplicate_change_points_by_window [(5, [30, 10])] 1 1 = [10, 30] ∧
      deduplicate_change_points_by_window [(5, [30, 10])] 1 1 ≠ [30, 10] := by
  decide

/-- C6 (amended): for every mapping containing exactly one window size,
`deduplicate_change_points_by_window` with `min_support_windows = 1` returns
exactly the input locations (as a multiset), in ascending order — hence
unchanged whenever the input list was already sorted. -/
theorem c6_single_window (w : Nat) (cps : List Int) (alpha : ℚ) :
    (deduplicate_change_points_by_window [(w, cps)] alpha 1).Perm cps ∧
      List.Sorted (· ≤ ·)
        (deduplicate_change_points_by_window [(w, cps)] alpha 1) := by
  by_cases hc : cps = []
  · subst hc
    exact ⟨List.Perm.refl _, List.sorted_nil⟩
  · have hne : ¬ ([(w, cps)] : List (Nat × List Int)).isEmpty = true := by simp
    have hperm : ((initRecords [(w, cps)]).insertionSort recLE).Perm
        (initRecords [(w, cps)]) := List.perm_insertionSort _ _
    have hws : ∀ r ∈ (initRecords [(w, cps)]).insertionSort recLE,
        r.window_size = w := by
      intro r hr
      have hmem := hperm.mem_iff.mp hr
      rw [initRecords_single, List.mem_map] at hmem
      obtain ⟨c, _, rfl⟩ := hmem
      rfl
    have hsup : ∀ r ∈ (initRecords [(w, cps)]).insertionSort recLE,
        r.support = 1 := by
      intro r hr
      have hmem := hperm.mem_iff.mp hr
      rw [initRecords_single, List.mem_map] at hmem
      obtain ⟨c, _, rfl⟩ := hmem
      rfl
    have hagg : aggregate_change_points_by_window [(w, cps)] alpha =
        (initRecords [(w, cps)]).insertionSort recLE := by
      unfold aggregate_change_points_by_window
      rw [if_neg hne]
      exact mergeLoop_id alpha w _ _ hws
    have hne2 : ¬ (aggregate_change_points_by_window [(w, cps)] alpha).isEmpty
        = true := by
      rw [hagg, List.isEmpty_iff]
      intro hnil
      rw [hnil] at hperm
      have hinit : initRecords [(w, cps)] = [] := hperm.symm.eq_nil
      rw [initRecords_single] at hinit
      exact hc (List.map_eq_nil.mp hinit)
    rw [deduplicate_eq hne hne2, hagg]
    have hfilter : ((initRecords [(w, cps)]).insertionSort recLE).filter
        (fun r => decide (1 ≤ r.support)) =
          (initRecords [(w, cps)]).insertionSort recLE := by
      rw [List.filter_eq_self]
      intro r hr
      rw [decide_eq_true_iff, hsup r hr]
    rw [hfilter]
    constructor
    · have hmp := hperm.map Record.cp
      rw [initRecords_single, List.map_map] at hmp
      have hid : (Record.cp ∘ fun c => (⟨c, w, 1, {w}⟩ : Record)) = id := rfl
      rw [hid, List.map_id] at hmp
      rw [initRecords_single]
      exact hmp
    · have hs : List.Sorted recLE ((initRecords [(w, cps)]).insertionSort recLE) :=
        List.sorted_insertionSort recLE _
      have hp : List.Pairwise (fun a b : Record => a.cp ≤ b.cp)
          ((initRecords [(w, cps)]).insertionSort recLE) := by
        refine List.Pairwise.imp_of_mem ?_ hs
        intro a b ha hb hab
        rcases hab with hlt | ⟨_, hle⟩
        · rw [hws a ha, hws b hb] at hlt
          exact absurd hlt (lt_irrefl w)
        · exact hle
      exact List.Pairwise.map Record.cp (fun a b h => h) hp

/-- C8: on the empty input mapping, `aggregate_change_points_by_window`
returns an empty result and `deduplicate_change_points_by_window` returns
the empty list, for every `alpha` and every threshold, without fault. -/
theorem c8_empty_input (alpha : ℚ) (m : Nat) :
    aggregate_change_points_by_window [] alpha = [] ∧
      deduplicate_change_points_by_window [] alpha m = [] :=
  ⟨rfl, rfl⟩

/-- C10: the aggregation conserves support — the supports of the output
records sum to the total number of `(windowSize, location)` candidate pairs
of the input — and every output record's `supporting_windows` is a non-empty
subset of the input's window sizes. -/
theorem c10_support_conservation (inp : List (Nat × List Int)) (alpha : ℚ) :
    ((aggregate_change_points_by_window inp alpha).map Record.support).sum =
        (inp.map (fun p => p.2.length)).sum ∧
      ∀ r ∈ aggregate_change_points_by_window inp alpha,
        r.supporting_windows.Nonempty ∧
          r.supporting_windows ⊆ (inp.map Prod.fst).toFinset := by
  by_cases h : inp.isEmpty
  · rw [aggregate_empty alpha h]
    rw [List.isEmpty_iff] at h
    subst h
    simp
  · constructor
    · unfold aggregate_change_points_by_window
      rw [if_neg h]
      rw [mergeLoop_sum alpha _ _ le_rfl]
      rw [((List.perm_insertionSort recLE (initRecords inp)).map Record.support).sum_eq]
      exact initRecords_sum inp
    · unfold aggregate_change_points_by_window
      rw [if_neg h]
      apply mergeLoop_forall
      · intro a b ha hb
        have h4 : (mergeInto a b).supporting_windows =
            b.supporting_windows ∪ a.supporting_windows := rfl
        rw [h4]
        exact ⟨hb.1.mono Finset.subset_union_left,
          Finset.union_subset hb.2 ha.2⟩
      · intro r hr
        exact initRecords_windows inp r
          ((List.perm_insertionSort recLE _).mem_iff.mp hr)

/-! ## Lemmas about the executor loop -/

theorem findSome?_fault_map_ok {V F : Type}
    (results : List (Option (List (List (String × V))))) :
    (results.map Except.ok).findSome? (faultOf (F := F)) = none := by
  induction results with
  | nil => rfl
  | cons r rs ih => exact ih

/-! ## Claim theorems about the executor -/

/-- C2 (code bug): the not-applicable path is broken in the executor.  The
task function does return the `np.NaN` sentinel for a dataset shorter than
the minimum window (here 2 cases against `min_window = 3`), as the claim
says; but the pool delivers a pickled copy, so the identity guard of line
732 never fires and the streaming loop faults (`TypeError`) iterating the
float instead of skipping it; in bulk mode the line-753 filter keeps the
sentinel and the flattening of line 754 faults the same way.  The batch
aborts in both delivery modes: the sentinel contributes a fault, not zero
rows. -/
theorem c2_sentinel_not_skipped :
    testMartjushev_ADWIN [(), ()] 3 6 true true
        (fun _ _ _ => [("Algorithm", (0 : Nat))])
        (fun _ _ _ => [("Algorithm", 1)]) = none
    ∧ (∀ st : ExecState Nat,
        streamStepDelivered st (none : Option (List (List (String × Nat)))) =
          Except.error ())
    ∧ bulkKeepDelivered [(none : Option (List (List (String × Nat))))] = [none]
    ∧ flattenDelivered [(none : Option (List (List (String × Nat))))] =
        Except.error () :=
  ⟨rfl, fun _ => rfl, rfl, rfl⟩

/-- C3 (counterexample): a batch whose first task faults terminates the run
with an empty write trace — the accumulated table is not written at all on
early termination — whereas a normally completed (empty) batch does end with
the unconditional final write. -/
theorem c3_counterexample :
    (runStream
        [(Except.error 0 : Except Nat (Option (List (List (String × Nat)))))]
        ⟨⟨[], []⟩, [], 0, 0, []⟩).1.ops = [] ∧
      (runStream ([] : List (Except Nat (Option (List (List (String × Nat))))))
        ⟨⟨[], []⟩, [], 0, 0, []⟩).1.ops = [WriteOp.finalWrite ⟨[], []⟩] :=
  ⟨rfl, rfl⟩

/-- C3 (amended): on normal batch completion the full accumulated result
table is written to the results file once more, unconditionally — in both
delivery modes; but when an unhandled task fault propagates out of a worker,
the batch aborts before the final write, leaving only the periodic flushes
already performed (streaming mode) or no write at all (bulk mode). -/
theorem c3_final_flush {V F : Type} :
    (∀ (results : List (Option (List (List (String × V))))) (st : ExecState V),
        runStream (F := F) (results.map Except.ok) st =
          ({ results.foldl streamStep st with
              ops := (results.foldl streamStep st).ops ++
                [WriteOp.finalWrite (results.foldl streamStep st).table] }, none))
    ∧ (∀ (pre : List (Option (List (List (String × V))))) (f : F)
          (post : List (Except F (Option (List (List (String × V))))))
          (st : ExecState V),
        runStream (pre.map Except.ok ++ Except.error f :: post) st =
          (pre.foldl streamStep st, some f))
    ∧ (∀ (results : List (Option (List (List (String × V))))) (st : ExecState V),
        runBulk (F := F) (results.map Except.ok) st =
          ({ st with
              table := write_results_to_buffer (results.filterMap id).flatten st.table,
              ops := st.ops ++ [WriteOp.finalWrite
                (write_results_to_buffer (results.filterMap id).flatten st.table)] },
            none))
    ∧ (∀ (pre : List (Option (List (List (String × V))))) (f : F)
          (post : List (Except F (Option (List (List (String × V))))))
          (st : ExecState V),
        runBulk (pre.map Except.ok ++ Except.error f :: post) st = (st, some f)) := by
  refine ⟨?_, ?_, ?_, ?_⟩
  · intro results
    induction results with
    | nil => intro st; rfl
    | cons r rs ih => intro st; exact ih (streamStep st r)
  · intro pre f post
    induction pre with
    | nil => intro st; rfl
    | cons r rs ih => intro st; exact ih (streamStep st r)
  · intro results st
    have h2 : ((results.map Except.ok).filterMap (okResult (F := F))) = results := by
      induction results with
      | nil => rfl
      | cons r rs ih => exact congrArg (List.cons r) ih
    have h1 := findSome?_fault_map_ok (F := F) results
    simp only [runBulk, h1, h2]
  · intro pre f post st
    have h1 : (pre.map Except.ok ++ Except.error f :: post).findSome? faultOf =
        some f := by
      rw [List.findSome?_append, findSome?_fault_map_ok]
      rfl
    simp only [runBulk, h1]

/-! ## Lemmas about the result buffer -/

theorem getCell_not_mem {V : Type} {L : List String} {r : List (Option V)}
    {c : String} (h : c ∉ L) : getCell L r c = none := by
  induction L generalizing r with
  | nil => cases r <;> rfl
  | cons c0 cs ih =>
      cases r with
      | nil => rfl
      | cons v vs =>
          rw [List.mem_cons, not_or] at h
          show (if c0 = c then v else getCell cs vs c) = none
          rw [if_neg (fun e => h.1 e.symm)]
          exact ih h.2

theorem getCell_map {V : Type} (f : String → Option V) (L : List String)
    (c : String) :
    getCell L (L.map f) c = if c ∈ L then f c else none := by
  induction L with
  | nil => rfl
  | cons c0 cs ih =>
      show (if c0 = c then f c0 else getCell cs (cs.map f) c) = _
      by_cases h : c0 = c
      · subst h
        rw [if_pos rfl, if_pos (List.mem_cons_self _ _)]
      · rw [if_neg h, ih]
        by_cases h2 : c ∈ cs
        · rw [if_pos h2, if_pos (List.mem_cons_of_mem _ h2)]
        · rw [if_neg h2, if_neg ?_]
          rw [List.mem_cons, not_or]
          exact ⟨fun e => h e.symm, h2⟩

theorem lookupRow_not_mem {V : Type} {r : List (String × V)} {c : String}
    (h : c ∉ rowKeys r) : lookupRow r c = none := by
  unfold lookupRow
  have hfind : r.find? (fun kv => kv.1 == c) = none := by
    rw [List.find?_eq_none]
    intro kv hkv hbeq
    rw [beq_iff_eq] at hbeq
    exact h (hbeq ▸ List.mem_map_of_mem Prod.fst hkv)
  rw [hfind]
  rfl

theorem mem_unionColumns {V : Type} {tcols : List String}
    {new_rows : List (List (String × V))} {c : String} :
    c ∈ unionColumns tcols new_rows ↔
      c ∈ tcols ∨ ∃ r ∈ new_rows, c ∈ rowKeys r := by
  unfold unionColumns
  rw [(List.perm_insertionSort strRel _).mem_iff, List.mem_dedup,
    List.mem_append, List.mem_flatMap]

theorem lookupRow_eq_some_iff {V : Type} {r : List (String × V)}
    (h : (rowKeys r).Nodup) {c : String} {v : V} :
    lookupRow r c = some v ↔ (c, v) ∈ r := by
  induction r with
  | nil => simp [lookupRow]
  | cons kv rest ih =>
      obtain ⟨k, w⟩ := kv
      rw [rowKeys, List.map_cons, List.nodup_cons] at h
      by_cases hkc : k = c
      · subst hkc
        unfold lookupRow
        rw [List.find?_cons_of_pos _ (by simp)]
        simp only [Option.map_some', Option.some.injEq]
        constructor
        · rintro rfl
          exact List.mem_cons_self _ _
        · intro hm
          rcases List.mem_cons.mp hm with he | hm2
          · exact (Prod.mk.injEq _ _ _ _ ▸ he).2.symm
          · exact absurd (List.mem_map_of_mem Prod.fst hm2) h.1
      · unfold lookupRow
        rw [List.find?_cons_of_neg _ (by simp [hkc])]
        rw [show ((rest.find? (fun kv => kv.1 == c)).map Prod.snd) = lookupRow rest c
          from rfl]
        rw [ih h.2, List.mem_cons]
        constructor
        · exact Or.inr
        · rintro (he | hm2)
          · exact absurd (congrArg Prod.fst he) (fun e => hkc e.symm)
          · exact hm2

theorem lookupRow_perm {V : Type} {r r2 : List (String × V)} (hp : r.Perm r2)
    (hnd : (rowKeys r).Nodup) (c : String) :
    lookupRow r c = lookupRow r2 c := by
  have hnd2 : (rowKeys r2).Nodup := (hp.map Prod.fst).nodup hnd
  cases hr : lookupRow r c with
  | some v =>
      exact ((lookupRow_eq_some_iff hnd2).mpr
        (hp.subset ((lookupRow_eq_some_iff hnd).mp hr))).symm
  | none =>
      cases hr2 : lookupRow r2 c with
      | none => rfl
      | some v =>
          have hmem := (lookupRow_eq_some_iff hnd).mpr
            (hp.symm.subset ((lookupRow_eq_some_iff hnd2).mp hr2))
          rw [hr] at hmem
          exact absurd hmem (by simp)

theorem unionColumns_congr {V : Type} {tcols : List String}
    {nr nr2 : List (List (String × V))}
    (hf : List.Forall₂ (fun r r2 => r.Perm r2) nr nr2) :
    unionColumns tcols nr = unionColumns tcols nr2 := by
  have hflat : (nr.flatMap rowKeys).Perm (nr2.flatMap rowKeys) := by
    induction hf with
    | nil => exact List.Perm.refl _
    | cons h _ ih =>
        rw [List.flatMap_cons, List.flatMap_cons]
        exact (h.map Prod.fst).append ih
  have hperm : (tcols ++ nr.flatMap rowKeys).Perm (tcols ++ nr2.flatMap rowKeys) :=
    List.Perm.append_left tcols hflat
  exact List.eq_of_perm_of_sorted
    ((List.perm_insertionSort _ _).trans
      (hperm.dedup.trans (List.perm_insertionSort _ _).symm))
    (List.sorted_insertionSort _ _) (List.sorted_insertionSort _ _)

theorem newCells_congr {V : Type} (A : List String)
    {nr nr2 : List (List (String × V))}
    (hf : List.Forall₂ (fun r r2 => r.Perm r2) nr nr2)
    (hnd : ∀ r ∈ nr, (rowKeys r).Nodup) :
    nr2.map (fun r => A.map (fun c => lookupRow r c)) =
      nr.map (fun r => A.map (fun c => lookupRow r c)) := by
  induction hf with
  | nil => rfl
  | cons h hrest ih =>
      rw [List.map_cons, List.map_cons,
        ih (fun r hr => hnd r (List.mem_cons_of_mem _ hr))]
      congr 1
      exact List.map_congr_left
        (fun c _ => (lookupRow_perm h (hnd _ (List.mem_cons_self _ _)) c).symm)

theorem all_isEmpty_congr {V : Type} {nr nr2 : List (List (String × V))}
    (hf : List.Forall₂ (fun r r2 => r.Perm r2) nr nr2) :
    nr2.all (fun r => r.isEmpty) = nr.all (fun r => r.isEmpty) := by
  induction hf with
  | nil => rfl
  | cons h _ ih =>
      rw [List.all_cons, List.all_cons, ih]
      congr 1
      rw [Bool.eq_iff_iff, List.isEmpty_iff, List.isEmpty_iff]
      constructor
      · intro e
        exact (e ▸ h).eq_nil
      · intro e
        exact ((e ▸ h).symm).eq_nil

/-- C7 (counterexample): appending a non-empty batch consisting of one row
with no cells leaves the table unchanged (pandas' `df_new.empty` is true for
a rows-without-columns frame), instead of appending one all-missing row as
the claim requires. -/
theorem c7_counterexample :
    write_results_to_buffer [([] : List (String × Nat))] ⟨["x"], [[some 0]]⟩ =
        ⟨["x"], [[some 0]]⟩ ∧
      ¬ (write_results_to_buffer [([] : List (String × Nat))]
            ⟨["x"], [[some 0]]⟩).cells.length =
          (⟨["x"], [[some 0]]⟩ : Table Nat).cells.length + 1 :=
  ⟨rfl, by decide⟩

/-- C7 (amended): for every existing table and every batch of new rows at
least one of which has a cell, the buffer append produces a table whose
column set is the union of the existing and new column names, with missing
cells read as absent (`none`) rather than erroring, prior rows preserved in
order (cell-for-cell under every column name) followed by the new rows in
delivery order; appending the same rows with their cells permuted
(duplicate-free keys) yields an identical table.  A non-empty batch in which
every row has no cells at all is treated like an empty frame and leaves the
table unchanged. -/
theorem c7_buffer_append {V : Type} (existing : Table V)
    (new_rows : List (List (String × V)))
    (hne : ¬ new_rows.all (fun r => r.isEmpty) = true) :
    (∀ c, c ∈ (write_results_to_buffer new_rows existing).cols ↔
        c ∈ existing.cols ∨ ∃ r ∈ new_rows, c ∈ rowKeys r)
    ∧ (write_results_to_buffer new_rows existing).cells.length =
        existing.cells.length + new_rows.length
    ∧ (∀ i, i < existing.cells.length → ∀ c,
        getCell (write_results_to_buffer new_rows existing).cols
            ((write_results_to_buffer new_rows existing).cells.getD i []) c =
          getCell existing.cols (existing.cells.getD i []) c)
    ∧ (∀ j, j < new_rows.length → ∀ c,
        getCell (write_results_to_buffer new_rows existing).cols
            ((write_results_to_buffer new_rows existing).cells.getD
              (existing.cells.length + j) []) c =
          lookupRow (new_rows.getD j []) c)
    ∧ (∀ new_rows2, List.Forall₂ (fun r r2 => r.Perm r2) new_rows new_rows2 →
        (∀ r ∈ new_rows, (rowKeys r).Nodup) →
        write_results_to_buffer new_rows2 existing =
          write_results_to_buffer new_rows existing) := by
  have hbuf : write_results_to_buffer new_rows existing =
      ⟨unionColumns existing.cols new_rows,
        existing.cells.map (fun r => (unionColumns existing.cols new_rows).map
            (fun c => getCell existing.cols r c))
          ++ new_rows.map (fun r => (unionColumns existing.cols new_rows).map
            (fun c => lookupRow r c))⟩ := by
    unfold write_results_to_buffer
    rw [if_neg hne]
  refine ⟨?_, ?_, ?_, ?_, ?_⟩
  · intro c
    rw [hbuf]
    exact mem_unionColumns
  · rw [hbuf]
    simp [List.length_append, List.length_map]
  · intro i hi c
    rw [hbuf]
    have hlt : i < (existing.cells.map (fun r =>
        (unionColumns existing.cols new_rows).map
          (fun c => getCell existing.cols r c))).length := by
      simpa using hi
    rw [List.getD_eq_getElem?_getD, List.getElem?_append, if_pos hlt,
      List.getElem?_map, List.getElem?_eq_getElem hi]
    show getCell _ ((unionColumns existing.cols new_rows).map
        (fun c => getCell existing.cols (existing.cells[i]) c)) c = _
    rw [getCell_map]
    by_cases hc : c ∈ unionColumns existing.cols new_rows
    · rw [if_pos hc, List.getD_eq_getElem?_getD, List.getElem?_eq_getElem hi]
      rfl
    · rw [if_neg hc]
      have hcex : c ∉ existing.cols := fun hm =>
        hc (mem_unionColumns.mpr (Or.inl hm))
      rw [getCell_not_mem hcex]
  · intro j hj c
    rw [hbuf]
    have hlen : (existing.cells.map (fun r =>
        (unionColumns existing.cols new_rows).map
          (fun c => getCell existing.cols r c))).length = existing.cells.length :=
      List.length_map _ _
    rw [List.getD_eq_getElem?_getD, List.getElem?_append,
      if_neg (by rw [hlen]; omega), hlen]
    have hidx : existing.cells.length + j - existing.cells.length = j := by omega
    rw [hidx, List.getElem?_map, List.getElem?_eq_getElem hj]
    show getCell _ ((unionColumns existing.cols new_rows).map
        (fun c => lookupRow (new_rows[j]) c)) c = _
    rw [getCell_map, List.getD_eq_getElem?_getD, List.getElem?_eq_getElem hj]
    by_cases hc : c ∈ unionColumns existing.cols new_rows
    · rw [if_pos hc]
      rfl
    · rw [if_neg hc]
      have hcex : c ∉ rowKeys (new_rows[j]) := fun hm =>
        hc (mem_unionColumns.mpr (Or.inr ⟨new_rows[j], List.getElem_mem _, hm⟩))
      show (none : Option V) = lookupRow ((some (new_rows[j])).getD []) c
      rw [show ((some (new_rows[j])).getD [] : List (String × V)) = new_rows[j] from rfl]
      rw [lookupRow_not_mem hcex]
  · intro nr2 hf hnd
    have hne2 : ¬ nr2.all (fun r => r.isEmpty) = true := by
      rw [all_isEmpty_congr hf]
      exact hne
    unfold write_results_to_buffer
    rw [if_neg hne, if_neg hne2]
    have hcols := (@unionColumns_congr V existing.cols _ _ hf).symm
    rw [hcols]
    exact congrArg
      (fun cs => (⟨unionColumns existing.cols new_rows,
        existing.cells.map (fun r =>
            (unionColumns existing.cols new_rows).map
              (fun c => getCell existing.cols r c)) ++ cs⟩ : Table V))
      (newCells_congr (unionColumns existing.cols new_rows) hf hnd)

theorem c7_buffer_append_witness :
    ¬ ([[("a", (5 : Nat))]] : List (List (String × Nat))).all
        (fun r => r.isEmpty) = true ∧
      ((∀ c, c ∈ (write_results_to_buffer [[("a", (5 : Nat))]]
            (⟨["b"], [[some 7]]⟩ : Table Nat)).cols ↔
          c ∈ (⟨["b"], [[some 7]]⟩ : Table Nat).cols ∨
            ∃ r ∈ [[("a", (5 : Nat))]], c ∈ rowKeys r)
      ∧ (write_results_to_buffer [[("a", (5 : Nat))]]
            (⟨["b"], [[some 7]]⟩ : Table Nat)).cells.length =
          (⟨["b"], [[some 7]]⟩ : Table Nat).cells.length + 1
      ∧ (∀ i, i < (⟨["b"], [[some 7]]⟩ : Table Nat).cells.length → ∀ c,
          getCell (write_results_to_buffer [[("a", (5 : Nat))]]
                (⟨["b"], [[some 7]]⟩ : Table Nat)).cols
              ((write_results_to_buffer [[("a", (5 : Nat))]]
                (⟨["b"], [[some 7]]⟩ : Table Nat)).cells.getD i []) c =
            getCell (⟨["b"], [[some 7]]⟩ : Table Nat).cols
              ((⟨["b"], [[some 7]]⟩ : Table Nat).cells.getD i []) c)
      ∧ (∀ j, j < ([[("a", (5 : Nat))]] : List (List (String × Nat))).length → ∀ c,
          getCell (write_results_to_buffer [[("a", (5 : Nat))]]
                (⟨["b"], [[some 7]]⟩ : Table Nat)).cols
              ((write_results_to_buffer [[("a", (5 : Nat))]]
                (⟨["b"], [[some 7]]⟩ : Table Nat)).cells.getD
                ((⟨["b"], [[some 7]]⟩ : Table Nat).cells.length + j) []) c =
            lookupRow (([[("a", (5 : Nat))]] : List (List (String × Nat))).getD j []) c)
      ∧ (∀ new_rows2,
          List.Forall₂ (fun r r2 => r.Perm r2) [[("a", (5 : Nat))]] new_rows2 →
          (∀ r ∈ [[("a", (5 : Nat))]], (rowKeys r).Nodup) →
          write_results_to_buffer new_rows2 (⟨["b"], [[some 7]]⟩ : Table Nat) =
            write_results_to_buffer [[("a", (5 : Nat))]]
              (⟨["b"], [[some 7]]⟩ : Table Nat))) :=
  ⟨by decide, c7_buffer_append ⟨["b"], [[some 7]]⟩ [[("a", 5)]] (by decide)⟩

/-! ## Lemmas about the task builder -/

theorem listProduct_length (ls : List (List Val)) :
    (listProduct ls).length = (ls.map List.length).prod := by
  induction ls with
  | nil => rfl
  | cons vs rest ih =>
      rw [show listProduct (vs :: rest) =
        vs.flatMap (fun v => (listProduct rest).map (fun t => v :: t)) from rfl]
      rw [List.length_flatMap]
      have hconst : vs.map
          (List.length ∘ fun v => (listProduct rest).map (fun t => v :: t)) =
          vs.map (fun _ => (listProduct rest).length) :=
        List.map_congr_left (fun v _ => by simp)
      rw [hconst, List.map_const', List.sum_replicate, smul_eq_mul, ih,
        List.map_cons, List.prod_cons]

theorem combosOf_length (ps : List (String × List Val)) :
    (combosOf ps).length = (ps.map (fun p => p.2.length)).prod := by
  unfold combosOf
  rw [List.length_map, listProduct_length, List.map_map]
  rfl

theorem dictInsert_fresh {A : Type} {l : List (String × A)} {k : String}
    (v : A) (h : k ∉ l.map Prod.fst) : dictInsert l k v = l ++ [(k, v)] := by
  unfold dictInsert
  rw [if_neg ?_]
  intro hc
  exact h (List.elem_iff.mp hc)

theorem enabledArgs_eq {config : List Approach}
    (hnodup : ((config.filter (fun a => a.enabled)).map
        (fun a => a.funcname)).Nodup) :
    enabledArgs config =
      (config.filter (fun a => a.enabled)).map
        (fun a => (a.funcname, (a.metaParams, a.params))) := by
  suffices h : ∀ (cfg : List Approach)
      (acc : List (String × (ArgDict × List (String × List Val)))),
      ((cfg.filter (fun a => a.enabled)).map (fun a => a.funcname)).Nodup →
      (∀ a ∈ cfg, a.enabled = true → a.funcname ∉ acc.map Prod.fst) →
      cfg.foldl (fun acc a => if a.enabled then
          dictInsert acc a.funcname (a.metaParams, a.params) else acc) acc =
        acc ++ (cfg.filter (fun a => a.enabled)).map
          (fun a => (a.funcname, (a.metaParams, a.params))) by
    have := h config [] hnodup (by simp)
    simpa [enabledArgs] using this
  intro cfg
  induction cfg with
  | nil =>
      intro acc _ _
      simp
  | cons a rest ih =>
      intro acc hnd hfresh
      by_cases ha : a.enabled = true
      · rw [List.filter_cons_of_pos ha, List.map_cons, List.nodup_cons] at hnd
        rw [List.foldl_cons, if_pos ha,
          dictInsert_fresh _ (hfresh a (List.mem_cons_self _ _) ha)]
        rw [ih (acc ++ [(a.funcname, (a.metaParams, a.params))]) hnd.2 ?_]
        · rw [List.filter_cons_of_pos ha, List.map_cons, List.append_assoc,
            List.singleton_append]
        · intro b hb hben
          rw [List.map_append, List.mem_append]
          rintro (hmem | hmem)
          · exact hfresh b (List.mem_cons_of_mem _ hb) hben hmem
          · simp only [List.map_cons, List.map_nil, List.mem_singleton] at hmem
            have hbmem : b.funcname ∈ (rest.filter (fun x => x.enabled)).map
                (fun a => a.funcname) :=
              List.mem_map_of_mem _ (List.mem_filter.mpr ⟨hb, hben⟩)
            rw [hmem] at hbmem
            exact hnd.1 hbmem
      · rw [List.filter_cons_of_neg ha] at hnd
        rw [List.foldl_cons, if_neg ha,
          ih acc hnd (fun b hb hben => hfresh b (List.mem_cons_of_mem _ hb) hben),
          List.filter_cons_of_neg ha]

theorem rowKeys_dictUnion {a b : ArgDict} {c : String}
    (hc : c ∈ rowKeys (dictUnion a b)) : c ∈ rowKeys a ∨ c ∈ rowKeys b := by
  unfold dictUnion rowKeys at hc
  rw [List.map_append, List.mem_append] at hc
  rcases hc with h | h
  · rw [List.map_map] at h
    exact Or.inl h
  · right
    rw [List.mem_map] at h
    obtain ⟨kv, hkv, rfl⟩ := h
    exact List.mem_map_of_mem Prod.fst (List.mem_filter.mp hkv).1

theorem combosOf_keys {ps : List (String × List Val)} {d : ArgDict}
    (hd : d ∈ combosOf ps) : ∀ c ∈ rowKeys d, c ∈ ps.map Prod.fst := by
  unfold combosOf at hd
  rw [List.mem_map] at hd
  obtain ⟨vs, _, rfl⟩ := hd
  intro c hc
  unfold rowKeys at hc
  rw [List.mem_map] at hc
  obtain ⟨⟨k, v⟩, hkv, rfl⟩ := hc
  exact (List.mem_zip hkv).1

theorem crossedTasks_position_free {config : List Approach}
    {logs : List (String × List Int)} {f1_lag : Nat} {ds b : Bool}
    (hpos : ∀ a ∈ config, "position" ∉ a.params.map Prod.fst ∧
      "position" ∉ rowKeys a.metaParams)
    (hnodup : ((config.filter (fun a => a.enabled)).map
        (fun a => a.funcname)).Nodup) :
    ∀ t ∈ crossedTasks config logs f1_lag ds b, "position" ∉ rowKeys t.2 := by
  intro t ht hmem
  unfold crossedTasks at ht
  rw [List.mem_flatMap] at ht
  obtain ⟨fa, hfa, ht⟩ := ht
  rw [List.mem_map] at ht
  obtain ⟨m, hm, rfl⟩ := ht
  rcases rowKeys_dictUnion hmem with h | h
  · -- the key came from the family task stub
    unfold familyArguments at hfa
    rw [List.mem_flatMap] at hfa
    obtain ⟨fb, hfb, hfa⟩ := hfa
    rw [List.mem_map] at hfa
    obtain ⟨perm, hperm, rfl⟩ := hfa
    rw [enabledArgs_eq hnodup, List.mem_map] at hfb
    obtain ⟨a, hamem, rfl⟩ := hfb
    have hacfg : a ∈ config := (List.mem_filter.mp hamem).1
    have hperm2 : perm ∈ combosOf a.params := by
      cases b with
      | false => simpa using hperm
      | true => exact List.mem_of_mem_take (by simpa using hperm)
    rcases rowKeys_dictUnion h with h2 | h2
    · exact (hpos a hacfg).1 (combosOf_keys hperm2 _ h2)
    · exact (hpos a hacfg).2 h2
  · -- the key came from the dataset metadata dict
    rw [List.mem_map] at hm
    obtain ⟨lp, _, rfl⟩ := hm
    revert h
    show "position" ∈ rowKeys (mkMetaArg f1_lag ds lp) → False
    intro h
    simp [mkMetaArg, rowKeys] at h

theorem dictUnion_fresh {d : ArgDict} {p : String} {v : Val}
    (h : p ∉ rowKeys d) : dictUnion d [(p, v)] = d ++ [(p, v)] := by
  unfold dictUnion
  have h1 : d.map (fun kv => (kv.1, (lookupRow [(p, v)] kv.1).getD kv.2)) = d := by
    have hcong : ∀ kv ∈ d,
        (kv.1, (lookupRow [(p, v)] kv.1).getD kv.2) = kv := by
      intro kv hkv
      have hne : p ≠ kv.1 := fun e =>
        h (e ▸ List.mem_map_of_mem Prod.fst hkv)
      have hl : lookupRow [(p, v)] kv.1 = none := by
        unfold lookupRow
        rw [List.find?_cons_of_neg _ (by simp [hne])]
        rfl
      rw [hl]
      rfl
    rw [List.map_congr_left hcong, List.map_id']
  have h2 : [(p, v)].filter (fun kv => !((d.map Prod.fst).contains kv.1)) =
      [(p, v)] := by
    rw [List.filter_eq_self]
    intro kv hkv
    rw [List.mem_singleton] at hkv
    subst hkv
    simp only [Bool.not_eq_true']
    rw [← Bool.not_eq_true]
    intro hc
    exact h (List.elem_iff.mp hc)
  rw [h1, h2]

theorem lookupRow_append_fresh {V : Type} {d r : List (String × V)} {c : String}
    (h : c ∉ rowKeys d) : lookupRow (d ++ r) c = lookupRow r c := by
  unfold lookupRow
  rw [List.find?_append, List.find?_eq_none.mpr ?_]
  · rfl
  · intro kv hkv hbeq
    rw [beq_iff_eq] at hbeq
    exact h (hbeq ▸ List.mem_map_of_mem Prod.fst hkv)

theorem lookupRow_single (p : String) (v : Val) :
    lookupRow [(p, v)] p = some v := by
  unfold lookupRow
  rw [List.find?_cons_of_pos _ (by simp)]
  rfl

theorem stripPos_fresh {f : String} {d : ArgDict} {i : Nat}
    (h : "position" ∉ rowKeys d) :
    stripPos (f, dictUnion d [("position", Val.vnat i)]) = (f, d) := by
  unfold stripPos
  rw [dictUnion_fresh h]
  show (f, (d ++ [("position", Val.vnat i)]).filter
    (fun kv => !(kv.1 == "position"))) = (f, d)
  rw [List.filter_append]
  have h1 : d.filter (fun kv => !(kv.1 == "position")) = d := by
    rw [List.filter_eq_self]
    intro kv hkv
    have hne : kv.1 ≠ "position" := fun e =>
      h (e ▸ List.mem_map_of_mem Prod.fst hkv)
    simp [hne]
  have h2 : ([(("position" : String), Val.vnat i)]).filter
      (fun kv => !(kv.1 == "position")) = [] := rfl
  rw [h1, h2, List.append_nil]

theorem familyArguments_length {config : List Approach}
    (hnodup : ((config.filter (fun a => a.enabled)).map
        (fun a => a.funcname)).Nodup) :
    (familyArguments config false).length =
      ((config.filter (fun a => a.enabled)).map
        (fun a => (a.params.map (fun p => p.2.length)).prod)).sum := by
  unfold familyArguments
  rw [enabledArgs_eq hnodup, List.length_flatMap, List.map_map]
  congr 1
  apply List.map_congr_left
  intro a _
  show ((combosOf a.params).map _).length = _
  rw [List.length_map, combosOf_length]

theorem familyArguments_length_test {config : List Approach}
    (hnodup : ((config.filter (fun a => a.enabled)).map
        (fun a => a.funcname)).Nodup) :
    (familyArguments config true).length =
      ((config.filter (fun a => a.enabled)).map
        (fun a => min 1 ((a.params.map (fun p => p.2.length)).prod))).sum := by
  unfold familyArguments
  rw [enabledArgs_eq hnodup, List.length_flatMap, List.map_map]
  congr 1
  apply List.map_congr_left
  intro a _
  show (((combosOf a.params).take 1).map _).length = _
  rw [List.length_map, List.length_take, combosOf_length]

theorem crossedTasks_length (config : List Approach)
    (logs : List (String × List Int)) (f1_lag : Nat) (ds : Bool) :
    (crossedTasks config logs f1_lag ds false).length =
      (familyArguments config false).length * logs.length := by
  unfold crossedTasks
  rw [List.length_flatMap]
  have hconst : (familyArguments config false).map
      (List.length ∘ fun fa => (((if false = true then logs.take 1 else logs)).map
          (mkMetaArg f1_lag ds)).map (fun m => (fa.1, dictUnion fa.2 m))) =
      (familyArguments config false).map (fun _ => logs.length) :=
    List.map_congr_left (fun fa _ => by simp)
  rw [hconst, List.map_const', List.sum_replicate, smul_eq_mul]

theorem crossedTasks_length_test (config : List Approach)
    (logs : List (String × List Int)) (f1_lag : Nat) (ds : Bool) :
    (crossedTasks config logs f1_lag ds true).length =
      (familyArguments config true).length * min 1 logs.length := by
  unfold crossedTasks
  rw [List.length_flatMap]
  have hconst : (familyArguments config true).map
      (List.length ∘ fun fa => (((if true = true then logs.take 1 else logs)).map
          (mkMetaArg f1_lag ds)).map (fun m => (fa.1, dictUnion fa.2 m))) =
      (familyArguments config true).map (fun _ => min 1 logs.length) :=
    List.map_congr_left (fun fa _ => by simp [List.length_take])
  rw [hconst, List.map_const', List.sum_replicate, smul_eq_mul]

/-- C9: the task builder produces one task per (parameter-combination ×
dataset) pair over the full cartesian product of each enabled family's
parameter grids — stripping the display positions recovers exactly the
crossed task list, whose length is the sum over enabled families of the
product of their grid sizes times the dataset count — assigns each task in
the shuffled list its index as a unique display position, and shuffles the
list (`np.random.shuffle` modelled as an arbitrary permutation); in
test-run mode, each enabled family is truncated to a single parameter
combination and one single dataset is used. -/
theorem c9_task_builder
    (shuffle : List (String × ArgDict) → List (String × ArgDict))
    (config : List Approach) (logPaths : List (String × List Int))
    (f1_lag : Nat) (do_single_bar : Bool)
    (hshuf : ∀ l, (shuffle l).Perm l)
    (hpos : ∀ a ∈ config, "position" ∉ a.params.map Prod.fst ∧
      "position" ∉ rowKeys a.metaParams)
    (hnodup : ((config.filter (fun a => a.enabled)).map
        (fun a => a.funcname)).Nodup) :
    ((build_arguments_list shuffle config logPaths f1_lag do_single_bar
        false).map stripPos).Perm
      (crossedTasks config logPaths f1_lag do_single_bar false)
    ∧ (∀ i (h : i < (build_arguments_list shuffle config logPaths f1_lag
          do_single_bar false).length),
        lookupRow ((build_arguments_list shuffle config logPaths f1_lag
            do_single_bar false).get ⟨i, h⟩).2 "position" = some (Val.vnat i))
    ∧ (∀ i j (hi : i < (build_arguments_list shuffle config logPaths f1_lag
          do_single_bar false).length)
          (hj : j < (build_arguments_list shuffle config logPaths f1_lag
            do_single_bar false).length), i ≠ j →
        lookupRow ((build_arguments_list shuffle config logPaths f1_lag
            do_single_bar false).get ⟨i, hi⟩).2 "position" ≠
          lookupRow ((build_arguments_list shuffle config logPaths f1_lag
            do_single_bar false).get ⟨j, hj⟩).2 "position")
    ∧ (build_arguments_list shuffle config logPaths f1_lag do_single_bar
        false).length =
        ((config.filter (fun a => a.enabled)).map
          (fun a => (a.params.map (fun p => p.2.length)).prod)).sum *
          logPaths.length
    ∧ (build_arguments_list shuffle config logPaths f1_lag do_single_bar
        true).length =
        ((config.filter (fun a => a.enabled)).map
          (fun a => min 1 ((a.params.map (fun p => p.2.length)).prod))).sum *
          min 1 logPaths.length := by
  have hfree := @crossedTasks_position_free config logPaths f1_lag
    do_single_bar false hpos hnodup
  have hkey : ∀ i (h : i < (build_arguments_list shuffle config logPaths f1_lag
      do_single_bar false).length),
      lookupRow ((build_arguments_list shuffle config logPaths f1_lag
          do_single_bar false).get ⟨i, h⟩).2 "position" = some (Val.vnat i) := by
    intro i h
    unfold build_arguments_list at h ⊢
    rw [List.get_eq_getElem, List.getElem_map, List.getElem_enum]
    have hlen : i < (shuffle (crossedTasks config logPaths f1_lag
        do_single_bar false)).length := by
      rw [List.length_map, List.enum_length] at h
      exact h
    have hmem : (shuffle (crossedTasks config logPaths f1_lag do_single_bar
        false))[i] ∈
        shuffle (crossedTasks config logPaths f1_lag do_single_bar false) :=
      List.getElem_mem _
    have hfree2 : "position" ∉ rowKeys ((shuffle (crossedTasks config logPaths
        f1_lag do_single_bar false))[i]).2 :=
      hfree _ ((hshuf _).subset hmem)
    rw [dictUnion_fresh hfree2, lookupRow_append_fresh hfree2, lookupRow_single]
  refine ⟨?_, hkey, ?_, ?_, ?_⟩
  · unfold build_arguments_list
    rw [List.map_map]
    have hmapeq : ((shuffle (crossedTasks config logPaths f1_lag do_single_bar
        false)).enum).map (stripPos ∘ fun it =>
          (it.2.1, dictUnion it.2.2 [("position", Val.vnat it.1)])) =
        ((shuffle (crossedTasks config logPaths f1_lag do_single_bar
          false)).enum).map Prod.snd := by
      apply List.map_congr_left
      rintro ⟨idx, t⟩ hit
      have htmem : t ∈ shuffle (crossedTasks config logPaths f1_lag
          do_single_bar false) :=
        List.getElem?_mem (List.mem_enum_iff_getElem?.mp hit)
      have hfree2 : "position" ∉ rowKeys t.2 := hfree t ((hshuf _).subset htmem)
      show stripPos (t.1, dictUnion t.2 [("position", Val.vnat idx)]) = t
      rw [stripPos_fresh hfree2]
    rw [hmapeq, List.enum_map_snd]
    exact hshuf _
  · intro i j hi hj hne he
    rw [hkey i hi, hkey j hj] at he
    exact hne (Val.vnat.inj (Option.some.inj he))
  · unfold build_arguments_list
    rw [List.length_map, List.enum_length, (hshuf _).length_eq,
      crossedTasks_length, familyArguments_length hnodup]
  · unfold build_arguments_list
    rw [List.length_map, List.enum_length, (hshuf _).length_eq,
      crossedTasks_length_test, familyArguments_length_test hnodup]

theorem c9_task_builder_witness :
    (∀ l : List (String × ArgDict), (List.reverse l).Perm l) ∧
      (∀ a ∈ [(⟨"testBose", true, [("step_size", Val.vnat 2)],
          [("window_size", [Val.vnat 100, Val.vnat 200])]⟩ : Approach)],
        "position" ∉ a.params.map Prod.fst ∧
          "position" ∉ rowKeys a.metaParams) ∧
      ((([(⟨"testBose", true, [("step_size", Val.vnat 2)],
          [("window_size", [Val.vnat 100, Val.vnat 200])]⟩ : Approach)].filter
            (fun a => a.enabled)).map (fun a => a.funcname)).Nodup) ∧
      (build_arguments_list List.reverse
          [⟨"testBose", true, [("step_size", Val.vnat 2)],
            [("window_size", [Val.vnat 100, Val.vnat 200])]⟩]
          [("a", [1]), ("b", [])] 200 false false).length =
        (([(⟨"testBose", true, [("step_size", Val.vnat 2)],
            [("window_size", [Val.vnat 100, Val.vnat 200])]⟩ : Approach)].filter
              (fun a => a.enabled)).map
          (fun a => (a.params.map (fun p => p.2.length)).prod)).sum *
          ([(("a" : String), ([1] : List Int)), ("b", [])]).length :=
  ⟨fun l => l.reverse_perm, by decide, by decide,
    (c9_task_builder List.reverse
      [⟨"testBose", true, [("step_size", Val.vnat 2)],
        [("window_size", [Val.vnat 100, Val.vnat 200])]⟩]
      [("a", [1]), ("b", [])] 200 false
      (fun l => l.reverse_perm) (by decide) (by decide)).2.2.2.1⟩

end CDrift
